import Mathlib

/-!
Shallow embedding of the book-catalog service core:
the in-memory repository (`app/repositories/book_repository.py`),
the pagination service (`app/services/pagination_service.py`),
the string normalization helper (`app/utils/common_utils.py`),
and the filter/pagination models (`app/models/book.py`).

Python strings are modelled as `List Char`; the Python dict
`self._books : Dict[int, BookResponse]` is modelled as an
insertion-ordered association list (CPython dicts preserve insertion
order, updates keep position, deletions remove the entry), so
`list(dict.values())` is `List.map Prod.snd`.  Python's stable
`list.sort(key=…, reverse=…)` is modelled by insertion sort on the
non-strict key comparison (flipped for `reverse=True`), which is the
unique stable sort for a total key preorder — exactly CPython's
documented behaviour (Timsort is stable, and `reverse=True` keeps
equal elements in their original order).
-/

/-- Model of Python `str.strip()`: drop whitespace at both ends. -/
def pyStrip (s : List Char) : List Char :=
  ((s.dropWhile Char.isWhitespace).reverse.dropWhile Char.isWhitespace).reverse

/-- Model of Python `str.lower()`. -/
def pyLower (s : List Char) : List Char :=
  s.map Char.toLower

/-- `app/utils/common_utils.py::normalize_string`:
`value.strip().lower() if value else ""`. -/
def normalize_string (s : List Char) : List Char :=
  if s.isEmpty then [] else pyLower (pyStrip s)

/-- Model of Python substring containment `needle in haystack` for strings. -/
def containsSub (need : List Char) : List Char → Bool
  | [] => need.isEmpty
  | c :: rest => need.isPrefixOf (c :: rest) || containsSub need rest

/-- Lexicographic comparison of strings by code point, Python's `<=` on `str`,
which is the order used by `list.sort(key=str)`. -/
def lexLe : List Char → List Char → Bool
  | [], _ => true
  | _ :: _, [] => false
  | a :: as, b :: bs => if a < b then true else if b < a then false else lexLe as bs

/-- `BookResponse` from `app/models/book.py` (validated record). -/
structure Book where
  id : Nat
  title : List Char
  author : List Char
  year : Int
  tags : List (List Char)
deriving DecidableEq

/-- `BookCreate` from `app/models/book.py`: creation input, `tags` optional. -/
structure BookCreate where
  title : List Char
  author : List Char
  year : Int
  tags : Option (List (List Char))
deriving DecidableEq

/-- The `sort_by` whitelist `^(year|author)$`. -/
inductive SortKey where
  | year
  | author
deriving DecidableEq

/-- The `sort_order` whitelist `^(asc|desc)$`. -/
inductive SortOrder where
  | asc
  | desc
deriving DecidableEq

/-- `BookFilters` from `app/models/book.py` (post-validation values). -/
structure BookFilters where
  author : Option (List Char)
  year : Option Int
  search : Option (List Char)
  sort_by : Option SortKey
  sort_order : SortOrder
  page : Nat
  limit : Nat
deriving DecidableEq

/-- `PaginatedResponse` from `app/models/book.py`. -/
structure PaginatedResponse (α : Type) where
  items : List α
  total : Nat
  page : Nat
  limit : Nat
  has_next : Bool
  has_prev : Bool
deriving DecidableEq

/-- `StatsResponse` from `app/models/book.py`. -/
structure StatsResponse where
  total_books : Nat
  unique_authors : Nat
deriving DecidableEq

/-- `app/services/pagination_service.py::PaginationService.paginate`.
`items[start_idx:end_idx]` with `start_idx = (page-1)*limit`,
`end_idx = start_idx + limit` is `(items.drop start_idx).take limit`. -/
def PaginationService.paginate {α : Type} (items : List α) (page limit : Nat) :
    PaginatedResponse α :=
  let total := items.length
  let start_idx := (page - 1) * limit
  { items := (items.drop start_idx).take limit
    total := total
    page := page
    limit := limit
    has_next := decide (page * limit < total)
    has_prev := decide (1 < page) }

/-- Insertion-ordered dict write `d[k] = v`: update in place if the key is
present, else append. -/
def dictInsert (k : Nat) (v : Book) : List (Nat × Book) → List (Nat × Book)
  | [] => [(k, v)]
  | (k', v') :: rest => if k' = k then (k, v) :: rest else (k', v') :: dictInsert k v rest

/-- Dict read `d.get(k)`. -/
def dictGet (k : Nat) : List (Nat × Book) → Option Book
  | [] => none
  | (k', v') :: rest => if k' = k then some v' else dictGet k rest

/-- Dict removal `del d[k]` (first matching entry). -/
def dictDelete (k : Nat) : List (Nat × Book) → List (Nat × Book)
  | [] => []
  | (k', v') :: rest => if k' = k then rest else (k', v') :: dictDelete k rest

/-- The mutable state of `InMemoryBookRepository`: `_books` and `_next_id`. -/
structure RepoState where
  books : List (Nat × Book)
  nextId : Nat
deriving DecidableEq

/-- `InMemoryBookRepository.__init__`: empty dict, `_next_id = 1`. -/
def initState : RepoState :=
  { books := [], nextId := 1 }

/-- `InMemoryBookRepository.load_initial_books`: for each book, store it under
its id and set `_next_id = max(_next_id, book.id + 1)`. -/
def loadInitialBooks (s : RepoState) (bs : List Book) : RepoState :=
  bs.foldl (fun st b => { books := dictInsert b.id b st.books
                          nextId := max st.nextId (b.id + 1) }) s

/-- Python `book_data.tags or []`: `None` and `[]` are falsy. -/
def pyOrElseEmpty (t : Option (List (List Char))) : List (List Char) :=
  match t with
  | none => []
  | some l => if l.isEmpty then [] else l

/-- `InMemoryBookRepository.create_book`: take `_next_id`, bump it, build the
response record and store it under the new id. -/
def createBook (s : RepoState) (bc : BookCreate) : RepoState × Book :=
  let book_id := s.nextId
  let book : Book :=
    { id := book_id
      title := bc.title
      author := bc.author
      year := bc.year
      tags := pyOrElseEmpty bc.tags }
  ({ books := dictInsert book_id book s.books, nextId := book_id + 1 }, book)

/-- `InMemoryBookRepository.get_book`: `self._books.get(book_id)`. -/
def getBook (s : RepoState) (book_id : Nat) : Option Book :=
  dictGet book_id s.books

/-- `InMemoryBookRepository.delete_book`: delete and return `true` if present,
else return `false`. -/
def deleteBook (s : RepoState) (book_id : Nat) : RepoState × Bool :=
  match dictGet book_id s.books with
  | some _ => ({ s with books := dictDelete book_id s.books }, true)
  | none => (s, false)

/-- `if filters.author:` branch of `get_books` — skipped when the value is
falsy (`None` or the empty string), else keep books whose normalized author
contains the normalized filter value. -/
def applyAuthorFilter (a : Option (List Char)) (books : List Book) : List Book :=
  match a with
  | none => books
  | some v =>
    if v.isEmpty then books
    else books.filter (fun b => containsSub (normalize_string v) (normalize_string b.author))

/-- `if filters.year:` branch of `get_books` — `0` is falsy in Python, so a
zero year applies no predicate; else exact equality. -/
def applyYearFilter (y : Option Int) (books : List Book) : List Book :=
  match y with
  | none => books
  | some v => if v = 0 then books else books.filter (fun b => b.year == v)

/-- `if filters.search:` branch of `get_books` — same normalized substring
test against the title. -/
def applySearchFilter (v : Option (List Char)) (books : List Book) : List Book :=
  match v with
  | none => books
  | some w =>
    if w.isEmpty then books
    else books.filter (fun b => containsSub (normalize_string w) (normalize_string b.title))

/-- The sorting step of `get_books`: `books.sort(key=…, reverse=…)`.
Python's sort is stable; with a total key preorder the stable sort is
insertion sort on the non-strict key comparison, and `reverse=True`
(which also keeps equal elements in their original order) is insertion
sort on the flipped non-strict comparison. -/
def sortBooks (sb : Option SortKey) (so : SortOrder) (books : List Book) : List Book :=
  match sb with
  | none => books
  | some SortKey.year =>
    match so with
    | SortOrder.asc => List.insertionSort (fun a b => a.year ≤ b.year) books
    | SortOrder.desc => List.insertionSort (fun a b => b.year ≤ a.year) books
  | some SortKey.author =>
    match so with
    | SortOrder.asc =>
      List.insertionSort
        (fun a b => lexLe (normalize_string a.author) (normalize_string b.author) = true) books
    | SortOrder.desc =>
      List.insertionSort
        (fun a b => lexLe (normalize_string b.author) (normalize_string a.author) = true) books

/-- The filter → sort part of `InMemoryBookRepository.get_books`, before the
pagination call: snapshot the dict values, apply the three filters in source
order, then sort. -/
def queryList (s : RepoState) (f : BookFilters) : List Book :=
  sortBooks f.sort_by f.sort_order
    (applySearchFilter f.search
      (applyYearFilter f.year
        (applyAuthorFilter f.author (s.books.map Prod.snd))))

/-- `InMemoryBookRepository.get_books`: filter, sort, then paginate. -/
def getBooks (s : RepoState) (f : BookFilters) : PaginatedResponse Book :=
  PaginationService.paginate (queryList s f) f.page f.limit

/-- `InMemoryBookRepository.get_stats`: `len(self._books)` and
`len(set(book.author for book in self._books.values()))`; the cardinality of
a Python set built from a list is the length of the deduplicated list. -/
def getStats (s : RepoState) : StatsResponse :=
  { total_books := s.books.length
    unique_authors := ((s.books.map (fun p => p.2.author)).dedup).length }

/-- One repository mutation: a `create_book` call or a `delete_book` call. -/
inductive Op where
  | createOp (bc : BookCreate)
  | deleteOp (book_id : Nat)

/-- Run a sequence of create/delete calls, collecting the ids returned by the
create calls in order. -/
def runOps (s : RepoState) : List Op → RepoState × List Nat
  | [] => (s, [])
  | Op.createOp bc :: rest =>
    let p := createBook s bc
    let q := runOps p.1 rest
    (q.1, p.2.id :: q.2)
  | Op.deleteOp i :: rest => runOps (deleteBook s i).1 rest

/-- Number of create calls in an operation sequence. -/
def countCreates : List Op → Nat
  | [] => 0
  | Op.createOp _ :: rest => countCreates rest + 1
  | Op.deleteOp _ :: rest => countCreates rest

/-- Largest id among a list of records (0 when empty). -/
def maxBookId (bs : List Book) : Nat :=
  (bs.map (fun b => b.id)).foldr max 0

/-- Concrete record: id 1, year 2000 (ties with `bkTie2` on year). -/
def bkTie1 : Book :=
  { id := 1, title := "t1".data, author := "X".data, year := 2000, tags := [] }

/-- Concrete record: id 2, year 2000. -/
def bkTie2 : Book :=
  { id := 2, title := "t2".data, author := "Y".data, year := 2000, tags := [] }

/-- Concrete store holding `bkTie1` and `bkTie2` in snapshot order. -/
def stTie : RepoState :=
  { books := [(1, bkTie1), (2, bkTie2)], nextId := 3 }

/-- Concrete record with distinct year 1990. -/
def bkY1 : Book :=
  { id := 1, title := "a".data, author := "A".data, year := 1990, tags := [] }

/-- Concrete record with distinct year 2005. -/
def bkY2 : Book :=
  { id := 2, title := "b".data, author := "B".data, year := 2005, tags := [] }

/-- Filter spec with no filters, sort by year ascending, page 1, limit 10. -/
def fYearAsc : BookFilters :=
  { author := none, year := none, search := none,
    sort_by := some SortKey.year, sort_order := SortOrder.asc, page := 1, limit := 10 }

/-- Filter spec with no filters, sort by year descending, page 1, limit 10. -/
def fYearDesc : BookFilters :=
  { author := none, year := none, search := none,
    sort_by := some SortKey.year, sort_order := SortOrder.desc, page := 1, limit := 10 }

/-- Filter spec with every field absent (the validated defaults). -/
def fNone : BookFilters :=
  { author := none, year := none, search := none,
    sort_by := none, sort_order := SortOrder.asc, page := 1, limit := 10 }

/-- Concrete record whose author is upper-case ROBERT. -/
def bkRobertUpper : Book :=
  { id := 1, title := "clean".data, author := "ROBERT".data, year := 2008, tags := [] }

/-- Concrete record whose author is lower-case robert. -/
def bkRobertLower : Book :=
  { id := 2, title := "agile".data, author := "robert".data, year := 2011, tags := [] }

/-- Concrete store whose two authors differ only by letter case. -/
def stCaseAsym : RepoState :=
  { books := [(1, bkRobertUpper), (2, bkRobertLower)], nextId := 3 }

/-- Concrete pre-seeded record with id 5. -/
def bk5 : Book :=
  { id := 5, title := "five".data, author := "F".data, year := 1995, tags := [] }

/-- Concrete pre-seeded record with id 10. -/
def bk10 : Book :=
  { id := 10, title := "ten".data, author := "T".data, year := 2010, tags := [] }

/-- Concrete creation input with absent tags. -/
def bcSample : BookCreate :=
  { title := "new".data, author := "N".data, year := 2020, tags := none }

/-! Helper lemmas. -/

theorem containsSub_nil (l : List Char) : containsSub [] l = true := by
  induction l with
  | nil => rfl
  | cons c t ih => simp [containsSub, ih, List.isPrefixOf]

theorem normalize_string_of_pyStrip_nil {a : List Char} (h : pyStrip a = []) :
    normalize_string a = [] := by
  by_cases ha : a.isEmpty <;> simp [normalize_string, ha, h, pyLower]

theorem applyAuthorFilter_eq_filter (v : List Char) (l : List Book) :
    applyAuthorFilter (some v) l
      = l.filter (fun b => containsSub (normalize_string v) (normalize_string b.author)) := by
  cases v with
  | nil =>
    simp only [applyAuthorFilter, List.isEmpty_nil, if_true]
    have hall : ∀ b : Book,
        containsSub (normalize_string []) (normalize_string b.author) = true := by
      intro b
      rw [show normalize_string [] = [] from rfl]
      exact containsSub_nil _
    calc l = l.filter (fun _ => true) := (List.filter_true l).symm
      _ = l.filter (fun b => containsSub (normalize_string []) (normalize_string b.author)) :=
        List.filter_congr (fun x _ => (hall x).symm)
  | cons c cs => simp [applyAuthorFilter]

theorem applySearchFilter_eq_filter (v : List Char) (l : List Book) :
    applySearchFilter (some v) l
      = l.filter (fun b => containsSub (normalize_string v) (normalize_string b.title)) := by
  cases v with
  | nil =>
    simp only [applySearchFilter, List.isEmpty_nil, if_true]
    have hall : ∀ b : Book,
        containsSub (normalize_string []) (normalize_string b.title) = true := by
      intro b
      rw [show normalize_string [] = [] from rfl]
      exact containsSub_nil _
    calc l = l.filter (fun _ => true) := (List.filter_true l).symm
      _ = l.filter (fun b => containsSub (normalize_string []) (normalize_string b.title)) :=
        List.filter_congr (fun x _ => (hall x).symm)
  | cons c cs => simp [applySearchFilter]

theorem applyAuthorFilter_of_normalize_nil {a : List Char} (h : normalize_string a = [])
    (l : List Book) : applyAuthorFilter (some a) l = l := by
  rw [applyAuthorFilter_eq_filter a, h]
  calc l.filter (fun b => containsSub [] (normalize_string b.author))
      = l.filter (fun _ => true) := List.filter_congr (fun x _ => containsSub_nil _)
    _ = l := List.filter_true l

theorem applySearchFilter_of_normalize_nil {a : List Char} (h : normalize_string a = [])
    (l : List Book) : applySearchFilter (some a) l = l := by
  rw [applySearchFilter_eq_filter a, h]
  calc l.filter (fun b => containsSub [] (normalize_string b.title))
      = l.filter (fun _ => true) := List.filter_congr (fun x _ => containsSub_nil _)
    _ = l := List.filter_true l

theorem lexLe_refl (s : List Char) : lexLe s s = true := by
  induction s with
  | nil => rfl
  | cons a as ih => simp [lexLe, lt_irrefl, ih]

theorem lexLe_total (s t : List Char) : lexLe s t = true ∨ lexLe t s = true := by
  induction s generalizing t with
  | nil => left; rfl
  | cons a as ih =>
    cases t with
    | nil => right; rfl
    | cons b bs =>
      rcases lt_trichotomy a b with h | h | h
      · left; simp [lexLe, h]
      · subst h
        rcases ih bs with h2 | h2
        · left; simp [lexLe, lt_irrefl, h2]
        · right; simp [lexLe, lt_irrefl, h2]
      · right; simp [lexLe, h]

theorem lexLe_antisymm : ∀ {s t : List Char},
    lexLe s t = true → lexLe t s = true → s = t
  | [], [], _, _ => rfl
  | [], _ :: _, _, h2 => by simp [lexLe] at h2
  | _ :: _, [], h1, _ => by simp [lexLe] at h1
  | a :: as, b :: bs, h1, h2 => by
    rcases lt_trichotomy a b with h | h | h
    · simp [lexLe, h, asymm h] at h2
    · subst h
      have h1' : lexLe as bs = true := by simpa [lexLe, lt_irrefl] using h1
      have h2' : lexLe bs as = true := by simpa [lexLe, lt_irrefl] using h2
      rw [lexLe_antisymm h1' h2']
    · simp [lexLe, h, asymm h] at h1

theorem lexLe_trans : ∀ {s t u : List Char},
    lexLe s t = true → lexLe t u = true → lexLe s u = true
  | [], _, _, _, _ => rfl
  | _ :: _, [], _, h1, _ => by simp [lexLe] at h1
  | _ :: _, _ :: _, [], _, h2 => by simp [lexLe] at h2
  | a :: as, b :: bs, c :: cs, h1, h2 => by
    rcases lt_trichotomy a b with hab | hab | hab
    · rcases lt_trichotomy b c with hbc | hbc | hbc
      · simp [lexLe, lt_trans hab hbc]
      · subst hbc; simp [lexLe, hab]
      · simp [lexLe, hbc, asymm hbc] at h2
    · subst hab
      rcases lt_trichotomy a c with hac | hac | hac
      · simp [lexLe, hac]
      · subst hac
        have h1' : lexLe as bs = true := by simpa [lexLe, lt_irrefl] using h1
        have h2' : lexLe bs cs = true := by simpa [lexLe, lt_irrefl] using h2
        simp [lexLe, lt_irrefl, lexLe_trans h1' h2']
      · simp [lexLe, hac, asymm hac] at h2
    · simp [lexLe, hab, asymm hab] at h1

theorem dictGet_dictInsert_self (k : Nat) (v : Book) :
    ∀ l : List (Nat × Book), dictGet k (dictInsert k v l) = some v
  | [] => by simp [dictInsert, dictGet]
  | (k', v') :: rest => by
    by_cases h : k' = k
    · simp [dictInsert, dictGet, h]
    · simp [dictInsert, dictGet, h, dictGet_dictInsert_self k v rest]

theorem dictGet_dictInsert_ne {j k : Nat} (hjk : j ≠ k) (v : Book) :
    ∀ l : List (Nat × Book), dictGet j (dictInsert k v l) = dictGet j l
  | [] => by simp [dictInsert, dictGet, Ne.symm hjk]
  | (k', v') :: rest => by
    by_cases h : k' = k
    · subst h
      simp [dictInsert, dictGet, Ne.symm hjk]
    · simp only [dictInsert, if_neg h, dictGet]
      rw [dictGet_dictInsert_ne hjk v rest]

theorem dictGet_eq_none_iff (k : Nat) :
    ∀ l : List (Nat × Book), dictGet k l = none ↔ k ∉ l.map Prod.fst
  | [] => by simp [dictGet]
  | (k', v') :: rest => by
    by_cases h : k' = k
    · subst h; simp [dictGet]
    · simp [dictGet, h, dictGet_eq_none_iff k rest, Ne.symm h]

theorem dictDelete_of_get_none {k : Nat} :
    ∀ {l : List (Nat × Book)}, dictGet k l = none → dictDelete k l = l
  | [], _ => rfl
  | (k', v') :: rest, h => by
    by_cases hk : k' = k
    · subst hk; simp [dictGet] at h
    · simp only [dictGet, if_neg hk] at h
      simp [dictDelete, hk, dictDelete_of_get_none h]

theorem dictGet_dictDelete_ne {j k : Nat} (hjk : j ≠ k) :
    ∀ l : List (Nat × Book), dictGet j (dictDelete k l) = dictGet j l
  | [] => rfl
  | (k', v') :: rest => by
    by_cases h : k' = k
    · subst h
      simp [dictDelete, dictGet, Ne.symm hjk]
    · simp only [dictDelete, if_neg h, dictGet]
      rw [dictGet_dictDelete_ne hjk rest]

theorem dictGet_dictDelete_self {k : Nat} :
    ∀ {l : List (Nat × Book)}, (l.map Prod.fst).Nodup →
      dictGet k (dictDelete k l) = none
  | [], _ => rfl
  | (k', v') :: rest, hnd => by
    have hnd' := List.nodup_cons.mp (show (k' :: rest.map Prod.fst).Nodup from hnd)
    by_cases h : k' = k
    · subst h
      simp only [dictDelete, if_pos rfl]
      exact (dictGet_eq_none_iff k' rest).mpr hnd'.1
    · simp [dictDelete, dictGet, h, dictGet_dictDelete_self hnd'.2]

theorem orderedInsert_decomp {α : Type} (r : α → α → Prop) [DecidableRel r] (x : α) :
    ∀ l : List α, ∃ l₁ l₂, List.orderedInsert r x l = l₁ ++ x :: l₂ ∧ l = l₁ ++ l₂ ∧
      ∀ y ∈ l₁, ¬ r x y
  | [] => ⟨[], [], rfl, rfl, by simp⟩
  | b :: l => by
    by_cases h : r x b
    · exact ⟨[], b :: l, by simp [List.orderedInsert, h], rfl, by simp⟩
    · obtain ⟨l₁, l₂, h1, h2, h3⟩ := orderedInsert_decomp r x l
      refine ⟨b :: l₁, l₂, ?_, ?_, ?_⟩
      · simp [List.orderedInsert, h, h1]
      · simp [h2]
      · intro y hy
        rcases List.mem_cons.mp hy with rfl | hy
        · exact h
        · exact h3 y hy

theorem filter_insertionSort_eq {α : Type} (r : α → α → Prop) [DecidableRel r]
    (p : α → Bool) (hp : ∀ a b, p a = true → p b = true → r a b) :
    ∀ l : List α, (List.insertionSort r l).filter p = l.filter p
  | [] => rfl
  | x :: l => by
    have ih := filter_insertionSort_eq r p hp l
    obtain ⟨l₁, l₂, h1, h2, h3⟩ := orderedInsert_decomp r x (List.insertionSort r l)
    have hsplit : (List.insertionSort r l).filter p = l₁.filter p ++ l₂.filter p := by
      rw [h2, List.filter_append]
    by_cases hx : p x = true
    · have hfl₁ : l₁.filter p = [] := by
        refine List.filter_eq_nil_iff.mpr ?_
        intro y hy hpy
        exact h3 y hy (hp x y hx hpy)
      calc (List.insertionSort r (x :: l)).filter p
          = (l₁ ++ x :: l₂).filter p := by
            show (List.orderedInsert r x (List.insertionSort r l)).filter p = _
            rw [h1]
        _ = l₁.filter p ++ (x :: l₂).filter p := List.filter_append _ _
        _ = x :: l₂.filter p := by rw [hfl₁, List.filter_cons_of_pos hx]; rfl
        _ = x :: l.filter p := by rw [← ih, hsplit, hfl₁]; rfl
        _ = (x :: l).filter p := (List.filter_cons_of_pos hx).symm
    · calc (List.insertionSort r (x :: l)).filter p
          = (l₁ ++ x :: l₂).filter p := by
            show (List.orderedInsert r x (List.insertionSort r l)).filter p = _
            rw [h1]
        _ = l₁.filter p ++ (x :: l₂).filter p := List.filter_append _ _
        _ = l₁.filter p ++ l₂.filter p := by rw [List.filter_cons_of_neg hx]
        _ = l.filter p := by rw [← hsplit, ih]
        _ = (x :: l).filter p := (List.filter_cons_of_neg hx).symm

theorem eq_of_perm_of_pairwise {α : Type} {r : α → α → Prop} (l₁ l₂ : List α)
    (hp : l₁.Perm l₂) (h₁ : l₁.Pairwise r) (h₂ : l₂.Pairwise r)
    (hanti : ∀ a ∈ l₁, ∀ b ∈ l₁, r a b → r b a → a = b) : l₁ = l₂ := by
  induction l₁ generalizing l₂ with
  | nil => exact hp.nil_eq
  | cons a t₁ ih =>
    cases l₂ with
    | nil => exact absurd hp.eq_nil (by simp)
    | cons b t₂ =>
      have hab : a = b := by
        by_cases hne : a = b
        · exact hne
        · have hbmem : b ∈ a :: t₁ := hp.mem_iff.mpr (List.mem_cons_self b t₂)
          have hamem : a ∈ b :: t₂ := hp.mem_iff.mp (List.mem_cons_self a t₁)
          have hb₁ : b ∈ t₁ := by
            rcases List.mem_cons.mp hbmem with h | h
            · exact absurd h.symm hne
            · exact h
          have ha₂ : a ∈ t₂ := by
            rcases List.mem_cons.mp hamem with h | h
            · exact absurd h hne
            · exact h
          have hrab : r a b := (List.pairwise_cons.mp h₁).1 b hb₁
          have hrba : r b a := (List.pairwise_cons.mp h₂).1 a ha₂
          exact hanti a (List.mem_cons_self a t₁) b hbmem hrab hrba
      subst hab
      have ht : t₁.Perm t₂ := hp.cons_inv
      have := ih t₂ ht (List.pairwise_cons.mp h₁).2 (List.pairwise_cons.mp h₂).2
        (fun x hx y hy => hanti x (List.mem_cons_of_mem a hx) y (List.mem_cons_of_mem a hy))
      rw [this]

theorem insertionSort_flip_reverse {α β : Type} (key : α → β) (le : β → β → Prop)
    [DecidableRel le]
    (htot : ∀ x y, le x y ∨ le y x)
    (htr : ∀ {x y z}, le x y → le y z → le x z)
    (hanti : ∀ {x y}, le x y → le y x → x = y)
    (l : List α) (hnd : (l.map key).Nodup) :
    List.insertionSort (fun a b => le (key b) (key a)) l
      = (List.insertionSort (fun a b => le (key a) (key b)) l).reverse := by
  haveI hdt : IsTotal α (fun a b => le (key b) (key a)) := ⟨fun a b => htot (key b) (key a)⟩
  haveI hdr : IsTrans α (fun a b => le (key b) (key a)) :=
    ⟨fun _ _ _ h1 h2 => htr h2 h1⟩
  have hd : (List.insertionSort (fun a b => le (key b) (key a)) l).Pairwise
      (fun a b => le (key b) (key a)) :=
    List.sorted_insertionSort (fun a b => le (key b) (key a)) l
  haveI hat : IsTotal α (fun a b => le (key a) (key b)) := ⟨fun a b => htot (key a) (key b)⟩
  haveI har : IsTrans α (fun a b => le (key a) (key b)) :=
    ⟨fun _ _ _ h1 h2 => htr h1 h2⟩
  have ha : (List.insertionSort (fun a b => le (key a) (key b)) l).Pairwise
      (fun a b => le (key a) (key b)) :=
    List.sorted_insertionSort (fun a b => le (key a) (key b)) l
  have harev : ((List.insertionSort (fun a b => le (key a) (key b)) l).reverse).Pairwise
      (fun a b => le (key b) (key a)) := by
    rw [List.pairwise_reverse]
    exact ha
  have hperm : (List.insertionSort (fun a b => le (key b) (key a)) l).Perm
      ((List.insertionSort (fun a b => le (key a) (key b)) l).reverse) :=
    ((List.perm_insertionSort _ l).trans (List.perm_insertionSort _ l).symm).trans
      (List.reverse_perm _).symm
  refine eq_of_perm_of_pairwise _ _ hperm hd harev ?_
  intro x hx y hy hxy hyx
  have hxl : x ∈ l := (List.perm_insertionSort _ l).mem_iff.mp hx
  have hyl : y ∈ l := (List.perm_insertionSort _ l).mem_iff.mp hy
  have hk : key x = key y := hanti hyx hxy
  exact List.inj_on_of_nodup_map hnd hxl hyl hk

theorem flatten_take_pages {α : Type} (l : List α) (limit : Nat) :
    ∀ k : Nat, ((List.range k).map (fun i => (l.drop (i * limit)).take limit)).flatten
      = l.take (k * limit)
  | 0 => by simp
  | k + 1 => by
    rw [List.range_succ, List.map_append, List.flatten_append, flatten_take_pages l limit k,
      Nat.succ_mul, List.take_add]
    simp

theorem le_numPages_mul (n limit : Nat) (hl : 0 < limit) :
    n ≤ ((n + limit - 1) / limit) * limit := by
  rcases Nat.eq_zero_or_pos n with hn | hn
  · simp [hn]
  · have h1 : n + limit - 1 = (n - 1) + limit := by omega
    rw [h1, Nat.add_div_right _ hl, Nat.succ_mul]
    have h2 := Nat.div_add_mod (n - 1) limit
    have h3 := Nat.mod_lt (n - 1) hl
    rw [Nat.mul_comm]
    omega

theorem deleteBook_nextId (s : RepoState) (i : Nat) :
    (deleteBook s i).1.nextId = s.nextId := by
  unfold deleteBook
  cases dictGet i s.books <;> rfl

theorem runOps_spec (ops : List Op) : ∀ s : RepoState,
    (runOps s ops).2 = List.range' s.nextId (countCreates ops) ∧
    (runOps s ops).1.nextId = s.nextId + countCreates ops := by
  induction ops with
  | nil => intro s; exact ⟨rfl, rfl⟩
  | cons op rest ih =>
    intro s
    cases op with
    | createOp bc =>
      have h := ih (createBook s bc).1
      have hnext : (createBook s bc).1.nextId = s.nextId + 1 := rfl
      constructor
      · show (createBook s bc).2.id :: (runOps (createBook s bc).1 rest).2
          = List.range' s.nextId (countCreates rest + 1)
        rw [List.range'_succ, h.1, hnext]
        rfl
      · show (runOps (createBook s bc).1 rest).1.nextId = s.nextId + (countCreates rest + 1)
        rw [h.2, hnext]
        omega
    | deleteOp i =>
      have h := ih (deleteBook s i).1
      constructor
      · show (runOps (deleteBook s i).1 rest).2 = List.range' s.nextId (countCreates rest)
        rw [h.1, deleteBook_nextId]
      · show (runOps (deleteBook s i).1 rest).1.nextId = s.nextId + countCreates rest
        rw [h.2, deleteBook_nextId]

theorem loadInitialBooks_nextId (bs : List Book) : ∀ (n : Nat) (books : List (Nat × Book)),
    (loadInitialBooks ⟨books, n⟩ bs).nextId
      = max n ((bs.map (fun b => b.id + 1)).foldr max 0) := by
  induction bs with
  | nil => intro n books; simp [loadInitialBooks]
  | cons b t ih =>
    intro n books
    show (loadInitialBooks ⟨dictInsert b.id b books, max n (b.id + 1)⟩ t).nextId = _
    rw [ih (max n (b.id + 1)) (dictInsert b.id b books)]
    show max (max n (b.id + 1)) ((t.map (fun b => b.id + 1)).foldr max 0)
      = max n (max (b.id + 1) ((t.map (fun b => b.id + 1)).foldr max 0))
    omega

theorem maxBookId_cons (b : Book) (t : List Book) :
    maxBookId (b :: t) = max b.id (maxBookId t) := rfl

theorem foldr_max_succ (bs : List Book) (hne : bs ≠ []) :
    (bs.map (fun b => b.id + 1)).foldr max 0 = maxBookId bs + 1 := by
  induction bs with
  | nil => exact absurd rfl hne
  | cons b t ih =>
    cases t with
    | nil =>
      show max (b.id + 1) 0 = maxBookId [b] + 1
      rw [maxBookId_cons]
      have h0 : maxBookId ([] : List Book) = 0 := rfl
      rw [h0]
      omega
    | cons c u =>
      have h := ih (by simp)
      show max (b.id + 1) (((c :: u).map (fun b => b.id + 1)).foldr max 0)
        = maxBookId (b :: c :: u) + 1
      rw [h, maxBookId_cons b (c :: u)]
      omega

theorem mem_le_maxBookId {bs : List Book} {b : Book} (hb : b ∈ bs) :
    b.id ≤ maxBookId bs := by
  induction bs with
  | nil => cases hb
  | cons c t ih =>
    rw [maxBookId_cons]
    rcases List.mem_cons.mp hb with rfl | h
    · omega
    · have := ih h
      omega

/-! Claim theorems. -/

/-- C2: for every finite sequence and every `limit ≥ 1`, concatenating the
`items` fields of `paginate(seq, page, limit)` for `page = 1 .. ⌈length/limit⌉`
in increasing page order yields exactly the original sequence, each element
once, in order. -/
theorem pagination_completeness {α : Type} (l : List α) (limit : Nat) (hl : 1 ≤ limit) :
    ((List.range ((l.length + limit - 1) / limit)).map
        (fun i => (PaginationService.paginate l (i + 1) limit).items)).flatten = l := by
  have hitems : ∀ i : Nat, (PaginationService.paginate l (i + 1) limit).items
      = (l.drop (i * limit)).take limit := by
    intro i
    show (l.drop ((i + 1 - 1) * limit)).take limit = (l.drop (i * limit)).take limit
    rw [Nat.add_sub_cancel]
  simp only [hitems]
  rw [flatten_take_pages l limit]
  exact List.take_of_length_le (le_numPages_mul l.length limit hl)

/-- Witness for C2 at a concrete 10-element list with limit 3. -/
theorem pagination_completeness_witness :
    ((List.range ((([1,2,3,4,5,6,7,8,9,10] : List Nat).length + 3 - 1) / 3)).map
        (fun i => (PaginationService.paginate
          ([1,2,3,4,5,6,7,8,9,10] : List Nat) (i + 1) 3).items)).flatten
      = [1,2,3,4,5,6,7,8,9,10] :=
  pagination_completeness [1,2,3,4,5,6,7,8,9,10] 3 (by decide)

/-- C3: `paginate` returns `total = length(sequence)`, `items` the slice
`sequence[(page-1)*limit : (page-1)*limit + limit]` clamped to bounds,
`has_next = (page * limit < total)` and `has_prev = (page > 1)`; any page
strictly beyond the last returns empty items with `total` unchanged and
`has_next = false`, not an error. -/
theorem paginate_contract {α : Type} (l : List α) (page limit : Nat)
    (hp : 1 ≤ page) (hl : 1 ≤ limit) :
    (PaginationService.paginate l page limit).total = l.length ∧
    (PaginationService.paginate l page limit).items
      = (l.drop ((page - 1) * limit)).take limit ∧
    ((PaginationService.paginate l page limit).has_next = true ↔ page * limit < l.length) ∧
    ((PaginationService.paginate l page limit).has_prev = true ↔ 1 < page) ∧
    ((l.length + limit - 1) / limit < page →
      (PaginationService.paginate l page limit).items = [] ∧
      (PaginationService.paginate l page limit).has_next = false ∧
      (PaginationService.paginate l page limit).total = l.length) := by
  refine ⟨rfl, rfl, by simp [PaginationService.paginate],
    by simp [PaginationService.paginate], ?_⟩
  intro hbeyond
  have hstart : l.length ≤ (page - 1) * limit := by
    have h1 : (l.length + limit - 1) / limit ≤ page - 1 := by omega
    calc l.length ≤ ((l.length + limit - 1) / limit) * limit := le_numPages_mul _ _ hl
      _ ≤ (page - 1) * limit := mul_le_mul_right' h1 limit
  refine ⟨?_, ?_, rfl⟩
  · show ((l.drop ((page - 1) * limit)).take limit) = []
    rw [List.drop_eq_nil_of_le hstart]
    exact List.take_nil
  · show decide (page * limit < l.length) = false
    have h2 : (page - 1) * limit ≤ page * limit := mul_le_mul_right' (by omega) limit
    exact decide_eq_false (by omega)

/-- Witness for C3 at 10 items, limit 3, page 5 (strictly beyond last page 4). -/
theorem paginate_contract_witness :
    (PaginationService.paginate (List.range 10) 5 3).items = [] ∧
    (PaginationService.paginate (List.range 10) 5 3).has_next = false ∧
    (PaginationService.paginate (List.range 10) 5 3).total = (List.range 10).length :=
  (paginate_contract (List.range 10) 5 3 (by decide) (by decide)).2.2.2.2 (by decide)

/-- C6: `stats` returns `total_books = |store|` and `unique_authors` the
number of distinct author strings under exact case-sensitive identity; on a
store whose two authors differ only by letter case the stat counts 2 distinct
authors while the case-insensitive author filter matches both records. -/
theorem stats_contract (s : RepoState) :
    (getStats s).total_books = s.books.length ∧
    (getStats s).unique_authors = ((s.books.map (fun p => p.2.author)).toFinset).card ∧
    (getStats stCaseAsym).unique_authors = 2 ∧
    applyAuthorFilter (some "robert".data) (stCaseAsym.books.map Prod.snd)
      = stCaseAsym.books.map Prod.snd := by
  refine ⟨rfl, ?_, by decide, by decide⟩
  show ((s.books.map (fun p => p.2.author)).dedup).length = _
  rw [List.card_toFinset]

/-- C7: `delete(id)` returns true and removes the record iff a record with
that id is present, returns false otherwise without raising, and in both
cases leaves the id counter and all other records unchanged (stores have
duplicate-free keys, which holds for every reachable store). -/
theorem delete_contract (s : RepoState) (i : Nat)
    (hnd : (s.books.map Prod.fst).Nodup) :
    ((deleteBook s i).2 = true ↔ getBook s i ≠ none) ∧
    (deleteBook s i).1.nextId = s.nextId ∧
    getBook (deleteBook s i).1 i = none ∧
    (∀ j, j ≠ i → getBook (deleteBook s i).1 j = getBook s j) ∧
    (getBook s i = none → deleteBook s i = (s, false)) := by
  refine ⟨?_, deleteBook_nextId s i, ?_, ?_, ?_⟩
  · unfold deleteBook getBook
    cases h : dictGet i s.books <;> simp [h]
  · unfold deleteBook getBook
    cases h : dictGet i s.books with
    | none => simp [h]
    | some v => simpa [h] using dictGet_dictDelete_self hnd
  · intro j hj
    unfold deleteBook getBook
    cases h : dictGet i s.books with
    | none => simp [h]
    | some v => simpa [h] using dictGet_dictDelete_ne hj s.books
  · intro habs
    unfold deleteBook
    unfold getBook at habs
    rw [habs]

/-- Witness for C7: deleting id 1 from the concrete store removes it. -/
theorem delete_contract_witness :
    getBook (deleteBook stTie 1).1 1 = none :=
  (delete_contract stTie 1 (by decide)).2.2.1

/-- C10: `get` applied to the id of the record returned by `create` returns
exactly that record, absent tags are normalized to the empty list, and the
records already in the store are unchanged by the create. -/
theorem create_get_roundtrip (s : RepoState) (bc : BookCreate) :
    getBook (createBook s bc).1 (createBook s bc).2.id = some (createBook s bc).2 ∧
    (bc.tags = none → (createBook s bc).2.tags = []) ∧
    (∀ j, j ≠ (createBook s bc).2.id → getBook (createBook s bc).1 j = getBook s j) := by
  refine ⟨?_, ?_, ?_⟩
  · exact dictGet_dictInsert_self s.nextId _ s.books
  · intro h
    show pyOrElseEmpty bc.tags = []
    rw [h]
    rfl
  · intro j hj
    exact dictGet_dictInsert_ne hj _ s.books

/-- Witness for C10: creating with absent tags stores the empty tag list. -/
theorem create_get_roundtrip_witness :
    (createBook initState bcSample).2.tags = [] :=
  (create_get_roundtrip initState bcSample).2.1 rfl

/-- C5: the author filter selects exactly the records whose trim+lowercase
normalized author contains the normalized filter value as a substring, so two
filter values with equal normalizations (e.g. differing only in case) produce
identical results; the title search applies the same normalization to both
sides. -/
theorem author_filter_case_insensitive (s : RepoState) (f : BookFilters)
    (a b : List Char) (h : normalize_string a = normalize_string b) :
    (∀ l, applyAuthorFilter (some a) l
        = l.filter (fun bk => containsSub (normalize_string a) (normalize_string bk.author))) ∧
    getBooks s { f with author := some a } = getBooks s { f with author := some b } ∧
    (∀ (v : List Char) (l : List Book), applySearchFilter (some v) l
        = l.filter (fun bk => containsSub (normalize_string v) (normalize_string bk.title))) := by
  refine ⟨fun l => applyAuthorFilter_eq_filter a l, ?_,
    fun v l => applySearchFilter_eq_filter v l⟩
  have hq : queryList s { f with author := some a }
      = queryList s { f with author := some b } := by
    show sortBooks f.sort_by f.sort_order (applySearchFilter f.search (applyYearFilter f.year
        (applyAuthorFilter (some a) (s.books.map Prod.snd))))
      = sortBooks f.sort_by f.sort_order (applySearchFilter f.search (applyYearFilter f.year
        (applyAuthorFilter (some b) (s.books.map Prod.snd))))
    rw [applyAuthorFilter_eq_filter, applyAuthorFilter_eq_filter, h]
  show PaginationService.paginate (queryList s { f with author := some a }) f.page f.limit
    = PaginationService.paginate (queryList s { f with author := some b }) f.page f.limit
  rw [hq]

/-- Witness for C5: the two example author filter values from the spec give
identical query results on a concrete store. -/
theorem author_filter_case_insensitive_witness :
    getBooks stCaseAsym { fNone with author := some "ROBERT C. MARTIN".data }
      = getBooks stCaseAsym { fNone with author := some "robert c. martin".data } :=
  (author_filter_case_insensitive stCaseAsym fNone "ROBERT C. MARTIN".data
    "robert c. martin".data (by decide)).2.1

/-- C9: a falsy filter value is treated as absent — `year = 0`, an empty
author or search string, and a whitespace-only author or search value (which
the model's stripping reduces to empty, and whose normalization is empty
either way) all contribute no predicate, so the query behaves as if the
filter were not supplied. -/
theorem falsy_filters_ignored (s : RepoState) (f : BookFilters) :
    getBooks s { f with year := some 0 } = getBooks s { f with year := none } ∧
    getBooks s { f with author := some [] } = getBooks s { f with author := none } ∧
    getBooks s { f with search := some [] } = getBooks s { f with search := none } ∧
    (∀ a : List Char, pyStrip a = [] →
      getBooks s { f with author := some a } = getBooks s { f with author := none } ∧
      getBooks s { f with search := some a } = getBooks s { f with search := none }) := by
  refine ⟨?_, ?_, ?_, ?_⟩
  · show PaginationService.paginate
        (sortBooks f.sort_by f.sort_order (applySearchFilter f.search (applyYearFilter (some 0)
          (applyAuthorFilter f.author (s.books.map Prod.snd))))) f.page f.limit
      = PaginationService.paginate
        (sortBooks f.sort_by f.sort_order (applySearchFilter f.search (applyYearFilter none
          (applyAuthorFilter f.author (s.books.map Prod.snd))))) f.page f.limit
    rfl
  · show PaginationService.paginate
        (sortBooks f.sort_by f.sort_order (applySearchFilter f.search (applyYearFilter f.year
          (applyAuthorFilter (some []) (s.books.map Prod.snd))))) f.page f.limit
      = PaginationService.paginate
        (sortBooks f.sort_by f.sort_order (applySearchFilter f.search (applyYearFilter f.year
          (applyAuthorFilter none (s.books.map Prod.snd))))) f.page f.limit
    rfl
  · show PaginationService.paginate
        (sortBooks f.sort_by f.sort_order (applySearchFilter (some [])
          (applyYearFilter f.year (applyAuthorFilter f.author (s.books.map Prod.snd)))))
        f.page f.limit
      = PaginationService.paginate
        (sortBooks f.sort_by f.sort_order (applySearchFilter none
          (applyYearFilter f.year (applyAuthorFilter f.author (s.books.map Prod.snd)))))
        f.page f.limit
    rfl
  · intro a ha
    have hn : normalize_string a = [] := normalize_string_of_pyStrip_nil ha
    constructor
    · show PaginationService.paginate
          (sortBooks f.sort_by f.sort_order (applySearchFilter f.search (applyYearFilter f.year
            (applyAuthorFilter (some a) (s.books.map Prod.snd))))) f.page f.limit
        = PaginationService.paginate
          (sortBooks f.sort_by f.sort_order (applySearchFilter f.search (applyYearFilter f.year
            (applyAuthorFilter none (s.books.map Prod.snd))))) f.page f.limit
      rw [applyAuthorFilter_of_normalize_nil hn]
      rfl
    · show PaginationService.paginate
          (sortBooks f.sort_by f.sort_order (applySearchFilter (some a)
            (applyYearFilter f.year (applyAuthorFilter f.author (s.books.map Prod.snd)))))
          f.page f.limit
        = PaginationService.paginate
          (sortBooks f.sort_by f.sort_order (applySearchFilter none
            (applyYearFilter f.year (applyAuthorFilter f.author (s.books.map Prod.snd)))))
          f.page f.limit
      rw [applySearchFilter_of_normalize_nil hn]
      rfl

/-- Witness for C9: a whitespace-only author filter behaves as no filter on a
concrete store. -/
theorem falsy_filters_ignored_witness :
    getBooks stTie { fNone with author := some "  ".data }
      = getBooks stTie { fNone with author := none } :=
  ((falsy_filters_ignored stTie fNone).2.2.2 "  ".data (by decide)).1

/-- C8: sorting is stable with respect to the input (store snapshot) order —
for either sort field and either direction, the records whose sort key equals
any fixed value appear in the sorted output in exactly their input order —
and evaluating the same filter/sort/page specification twice against an
unchanged store yields identical results. -/
theorem sort_stable_and_deterministic (l : List Book) (s : RepoState) (f : BookFilters) :
    (∀ (so : SortOrder) (y : Int),
      (sortBooks (some SortKey.year) so l).filter (fun b => b.year == y)
        = l.filter (fun b => b.year == y)) ∧
    (∀ (so : SortOrder) (a : List Char),
      (sortBooks (some SortKey.author) so l).filter
          (fun b => normalize_string b.author == a)
        = l.filter (fun b => normalize_string b.author == a)) ∧
    getBooks s f = getBooks s f := by
  refine ⟨?_, ?_, rfl⟩
  · intro so y
    cases so with
    | asc =>
      refine filter_insertionSort_eq _ _ ?_ l
      intro p q hp hq
      have h1 : p.year = y := by simpa using hp
      have h2 : q.year = y := by simpa using hq
      show p.year ≤ q.year
      rw [h1, h2]
    | desc =>
      refine filter_insertionSort_eq _ _ ?_ l
      intro p q hp hq
      have h1 : p.year = y := by simpa using hp
      have h2 : q.year = y := by simpa using hq
      show q.year ≤ p.year
      rw [h1, h2]
  · intro so a
    cases so with
    | asc =>
      refine filter_insertionSort_eq _ _ ?_ l
      intro p q hp hq
      have h1 : normalize_string p.author = a := by simpa using hp
      have h2 : normalize_string q.author = a := by simpa using hq
      show lexLe (normalize_string p.author) (normalize_string q.author) = true
      rw [h1, h2]
      exact lexLe_refl a
    | desc =>
      refine filter_insertionSort_eq _ _ ?_ l
      intro p q hp hq
      have h1 : normalize_string p.author = a := by simpa using hp
      have h2 : normalize_string q.author = a := by simpa using hq
      show lexLe (normalize_string q.author) (normalize_string p.author) = true
      rw [h1, h2]
      exact lexLe_refl a

/-- C1 counterexample: on a store with two records tied on year, sorting
descending does not produce the exact reverse of the ascending result — the
stable sort keeps the tied pair in snapshot order in both directions, so the
tie-break order is preserved, not reversed. -/
theorem desc_not_exact_reverse_of_asc :
    ¬ ((getBooks stTie fYearDesc).items = ((getBooks stTie fYearAsc).items).reverse) := by
  decide

/-- C1 (amended): when the sort keys of the records are pairwise distinct
(for the chosen sort field), `desc` produces the exact reverse of the `asc`
sequence; records with equal keys keep their snapshot order under both
directions, so only the blocks of tied records are reversed, not the order
inside a block. -/
theorem desc_reverse_of_asc_of_distinct_keys (l : List Book) :
    ((l.map (fun b => b.year)).Nodup →
      sortBooks (some SortKey.year) SortOrder.desc l
        = (sortBooks (some SortKey.year) SortOrder.asc l).reverse) ∧
    ((l.map (fun b => normalize_string b.author)).Nodup →
      sortBooks (some SortKey.author) SortOrder.desc l
        = (sortBooks (some SortKey.author) SortOrder.asc l).reverse) := by
  constructor
  · intro hnd
    exact insertionSort_flip_reverse (fun b => b.year) (fun x y => x ≤ y)
      (fun x y => Int.le_total x y) (fun h1 h2 => le_trans h1 h2)
      (fun h1 h2 => le_antisymm h1 h2) l hnd
  · intro hnd
    exact insertionSort_flip_reverse (fun b => normalize_string b.author)
      (fun x y => lexLe x y = true) lexLe_total (fun h1 h2 => lexLe_trans h1 h2)
      (fun h1 h2 => lexLe_antisymm h1 h2) l hnd

/-- Witness for the amended C1 at two records with distinct years. -/
theorem desc_reverse_of_asc_witness :
    ([bkY1, bkY2].map (fun b => b.year)).Nodup ∧
    sortBooks (some SortKey.year) SortOrder.desc [bkY1, bkY2]
      = (sortBooks (some SortKey.year) SortOrder.asc [bkY1, bkY2]).reverse :=
  ⟨by decide, (desc_reverse_of_asc_of_distinct_keys [bkY1, bkY2]).1 (by decide)⟩

/-- C4: over any sequence of create calls interleaved with deletes after an
initial bulk load, the ids returned by create are exactly the consecutive
integers starting at the post-load counter — 1 for an empty load, max loaded
id + 1 otherwise — hence strictly increasing, never reused, strictly above
every loaded id, and `delete` never changes the counter. -/
theorem id_monotonicity (L : List Book) (ops : List Op) :
    (runOps (loadInitialBooks initState L) ops).2
      = List.range' (loadInitialBooks initState L).nextId (countCreates ops) ∧
    List.Pairwise (fun i j => i < j) (runOps (loadInitialBooks initState L) ops).2 ∧
    (∀ i ∈ (runOps (loadInitialBooks initState L) ops).2, ∀ b ∈ L, b.id < i) ∧
    (L = [] → (loadInitialBooks initState L).nextId = 1) ∧
    (L ≠ [] → (loadInitialBooks initState L).nextId = maxBookId L + 1) ∧
    (∀ (s : RepoState) (j : Nat), (deleteBook s j).1.nextId = s.nextId) := by
  have hrun := runOps_spec ops (loadInitialBooks initState L)
  have hnext : (loadInitialBooks initState L).nextId
      = max 1 ((L.map (fun b => b.id + 1)).foldr max 0) := loadInitialBooks_nextId L 1 []
  refine ⟨hrun.1, ?_, ?_, ?_, ?_, fun s j => deleteBook_nextId s j⟩
  · rw [hrun.1]
    exact List.pairwise_lt_range' _ _
  · intro i hi b hb
    rw [hrun.1] at hi
    have hge : (loadInitialBooks initState L).nextId ≤ i := (List.mem_range'_1.mp hi).1
    have hbound : b.id + 1 ≤ (loadInitialBooks initState L).nextId := by
      rw [hnext]
      have hne : L ≠ [] := by
        intro h
        subst h
        cases hb
      rw [foldr_max_succ L hne]
      have := mem_le_maxBookId hb
      omega
    omega
  · intro h
    subst h
    rfl
  · intro hne
    rw [hnext, foldr_max_succ L hne]
    omega

/-- Witness for C4: loading records with ids 5 and 10 makes the next create
return id 11. -/
theorem id_monotonicity_witness :
    (runOps (loadInitialBooks initState [bk5, bk10]) [Op.createOp bcSample]).2 = [11] := by
  have h := id_monotonicity [bk5, bk10] [Op.createOp bcSample]
  rw [h.1, h.2.2.2.2.1 (by simp)]
  decide
